import Mathlib

/-!
Shallow embedding of the copilot-ia repository (cache, agent wrapper,
coordinator) and proofs about the properties its specification states.

Strings are modelled as lists of characters (`Str`), Python's `in`
operator on strings as the executable substring test `containsSubB`,
`str.lower()` as a character-wise lower-casing, and wall-clock time
(`time.time()`) as an integer timestamp (only ordering and addition of
timestamps matter to the program).  The on-disk cache directory is
modelled as an association list from file paths to parsed cache entries.
-/

namespace Copilot

/-- Strings of the modelled program, as lists of characters. -/
abbrev Str := List Char

/-- Boolean prefix test on character lists. -/
def isPrefixOfB : Str → Str → Bool
  | [], _ => true
  | _ :: _, [] => false
  | a :: as, b :: bs => a == b && isPrefixOfB as bs

/-- Python's `needle in hay` substring test on strings. -/
def containsSubB (needle : Str) : Str → Bool
  | [] => isPrefixOfB needle []
  | c :: t => isPrefixOfB needle (c :: t) || containsSubB needle t

/-- Python's `str.lower()` (exact on the ASCII letters used by the program). -/
def pyLower (s : Str) : Str := s.map Char.toLower

/-- Python's `sep.join(parts)`. -/
def joinSep (sep : Str) : List Str → Str
  | [] => []
  | [x] => x
  | x :: y :: xs => x ++ sep ++ joinSep sep (y :: xs)

/-! ### Cache (src/src/utils/cache.py) -/

/-- Model of the `CacheEntry` pydantic class: one parsed cache file. -/
structure CacheEntry (α : Type) where
  key : Str
  value : α
  created_at : ℤ
  expires_at : Option ℤ
  hit_count : Nat
  deriving DecidableEq

/-- Configuration of a `Cache` instance.  `hashHex` stands for
`hashlib.sha256(key.encode()).hexdigest()`, an external library call. -/
structure CacheCfg where
  cache_dir : Str
  default_ttl : ℤ
  enabled : Bool
  hashHex : Str → Str

/-- The cache directory subtree: an association list from file path to the
parsed content of the `.json` file stored there. -/
abbrev FS (α : Type) := List (Str × CacheEntry α)

/-- Read the file at path `p`, if present. -/
def fsLookup {α : Type} : FS α → Str → Option (CacheEntry α)
  | [], _ => none
  | (q, e) :: t, p => if q = p then some e else fsLookup t p

/-- Write (create or overwrite) the file at path `p`. -/
def fsInsert {α : Type} : FS α → Str → CacheEntry α → FS α
  | [], p, e => [(p, e)]
  | (q, e') :: t, p, e => if q = p then (p, e) :: t else (q, e') :: fsInsert t p e

/-- Model of `Path.unlink` of the file at path `p`. -/
def fsErase {α : Type} : FS α → Str → FS α
  | [], _ => []
  | (q, e') :: t, p => if q = p then t else (q, e') :: fsErase t p

/-- Well-formedness of a directory tree: file paths are pairwise distinct. -/
def pathsNodup {α : Type} (fs : FS α) : Prop := (fs.map Prod.fst).Nodup

namespace Cache

/-- Model of `Cache._get_key_hash`: `hashlib.sha256(key.encode()).hexdigest()[:32]`. -/
def get_key_hash (c : CacheCfg) (key : Str) : Str :=
  (c.hashHex key).take 32

/-- Model of `Cache._get_cache_path`: `cache_dir / key_hash[:2] / (key_hash + ".json")`. -/
def get_cache_path (c : CacheCfg) (key : Str) : Str :=
  let key_hash := get_key_hash c key
  let subdir := key_hash.take 2
  c.cache_dir ++ "/".data ++ subdir ++ "/".data ++ (key_hash ++ ".json".data)

/-- Python truthiness of `entry.expires_at` (`None` and `0.0` are falsy). -/
def expTruthy (e : Option ℤ) : Bool :=
  match e with
  | none => false
  | some x => decide (x ≠ 0)

/-- The expiry test `entry.expires_at and now > entry.expires_at` used by
`get`, `exists`, `clear_expired` and `get_stats`. -/
def expiredB {α : Type} (now : ℤ) (e : CacheEntry α) : Bool :=
  expTruthy e.expires_at && decide (now > (e.expires_at.getD 0))

/-- Model of `Cache.set`.  Returns the boolean result together with the new directory
tree.  `ttl = none` models passing `ttl=None` (the default); Python's
`ttl or self.default_ttl` makes both `None` and `0` fall back to the
default TTL. -/
def set {α : Type} (c : CacheCfg) (fs : FS α) (key : Str) (value : α)
    (ttl : Option ℤ) (now : ℤ) : Bool × FS α :=
  if c.enabled = false then (false, fs)
  else
    let ttl' : ℤ := match ttl with
      | none => c.default_ttl
      | some t => if t = 0 then c.default_ttl else t
    let entry : CacheEntry α :=
      { key := key, value := value, created_at := now,
        expires_at := if ttl' > 0 then some (now + ttl') else none,
        hit_count := 0 }
    (true, fsInsert fs (get_cache_path c key) entry)

/-- Model of `Cache.delete`. -/
def delete {α : Type} (c : CacheCfg) (fs : FS α) (key : Str) : Bool × FS α :=
  let p := get_cache_path c key
  match fsLookup fs p with
  | none => (false, fs)
  | some _ => (true, fsErase fs p)

/-- Model of `Cache.get`.  Returns the looked-up value (or `none`) together with the
new directory tree: an expired entry is deleted, a hit rewrites the file
with `hit_count` incremented. -/
def get {α : Type} (c : CacheCfg) (fs : FS α) (key : Str) (now : ℤ) :
    Option α × FS α :=
  if c.enabled = false then (none, fs)
  else
    let p := get_cache_path c key
    match fsLookup fs p with
    | none => (none, fs)
    | some entry =>
      if expiredB now entry then (none, (delete c fs key).2)
      else
        let entry' := { entry with hit_count := entry.hit_count + 1 }
        (some entry.value, fsInsert fs p entry')

/-- Model of `Cache.exists`. -/
def existsKey {α : Type} (c : CacheCfg) (fs : FS α) (key : Str) (now : ℤ) :
    Bool × FS α :=
  if c.enabled = false then (false, fs)
  else
    let p := get_cache_path c key
    match fsLookup fs p with
    | none => (false, fs)
    | some entry =>
      if expiredB now entry then (false, (delete c fs key).2)
      else (true, fs)

/-- Model of `Cache.clear`: unlink every cache file, returning the count removed. -/
def clear {α : Type} (fs : FS α) : Nat × FS α :=
  (fs.length, [])

/-- Model of `Cache.clear_expired`: unlink exactly the files whose entry passes the
expiry test, returning the count removed. -/
def clear_expired {α : Type} (now : ℤ) (fs : FS α) : Nat × FS α :=
  ((fs.filter (fun kv => expiredB now kv.2)).length,
   fs.filter (fun kv => !expiredB now kv.2))

end Cache

/-! ### Agent wrapper (src/src/agents/base.py) -/

/-- Model of the `AgentResponse` pydantic class. -/
structure AgentResponse where
  success : Bool
  content : Str
  metadata : List (Str × Str)
  tokens_used : Option Nat
  model : Option Str
  deriving DecidableEq

/-- Outcome of the external call `self.agent.run(prompt)`: either the
extracted response content, or the message of the raised exception. -/
abbrev LLMOutcome := Except Str Str

namespace BaseCopilotAgent

/-- Model of `BaseCopilotAgent.run`: the `try`/`except Exception` wrapper around the
LLM call.  Totality of this function is the model of "the exception is
never raised further". -/
def run (name modelName : Str) (llm : LLMOutcome) : AgentResponse :=
  match llm with
  | .ok content =>
    { success := true, content := content,
      metadata := [("agent".data, name), ("model".data, modelName)],
      tokens_used := none, model := some modelName }
  | .error e =>
    { success := false, content := "Erro ao processar: ".data ++ e,
      metadata := [("error".data, e)],
      tokens_used := none, model := none }

/-- Model of `BaseCopilotAgent.arun`: the async variant (same `try`/`except` shape;
the success metadata carries only the agent name). -/
def arun (name modelName : Str) (llm : LLMOutcome) : AgentResponse :=
  match llm with
  | .ok content =>
    { success := true, content := content,
      metadata := [("agent".data, name)],
      tokens_used := none, model := some modelName }
  | .error e =>
    { success := false, content := "Erro ao processar: ".data ++ e,
      metadata := [("error".data, e)],
      tokens_used := none, model := none }

end BaseCopilotAgent

/-! ### Coordinator (src/src/agents/coordinator.py) -/

/-- Model of the `CopilotType` enum. -/
inductive CopilotType where
  | CODE_REVIEWER | DOCUMENTATION | TESTING | DEBUG
  | REFACTORING | ARCHITECTURE | SECURITY
  deriving DecidableEq

/-- The `.value` strings of the `CopilotType` enum members. -/
def CopilotType.value : CopilotType → Str
  | .CODE_REVIEWER => "code_reviewer".data
  | .DOCUMENTATION => "documentation".data
  | .TESTING => "testing".data
  | .DEBUG => "debug".data
  | .REFACTORING => "refactoring".data
  | .ARCHITECTURE => "architecture".data
  | .SECURITY => "security".data

/-- Model of the `TaskIntent` enum. -/
inductive TaskIntent where
  | REVIEW | DOCUMENT | TEST | DEBUG | REFACTOR
  | ANALYZE_ARCHITECTURE | SECURITY_SCAN | FULL_ANALYSIS
  deriving DecidableEq

namespace CopilotCoordinator

/-- Model of the `INTENT_COPILOT_MAP` class attribute. -/
def INTENT_COPILOT_MAP : TaskIntent → List CopilotType
  | .REVIEW => [.CODE_REVIEWER]
  | .DOCUMENT => [.DOCUMENTATION]
  | .TEST => [.TESTING]
  | .DEBUG => [.DEBUG]
  | .REFACTOR => [.REFACTORING]
  | .ANALYZE_ARCHITECTURE => [.ARCHITECTURE]
  | .SECURITY_SCAN => [.SECURITY]
  | .FULL_ANALYSIS => [.CODE_REVIEWER, .SECURITY, .ARCHITECTURE]

/-- Model of the `INTENT_KEYWORDS` class attribute. -/
def INTENT_KEYWORDS : TaskIntent → List Str
  | .REVIEW =>
    ["review".data, "revisar".data, "analisar código".data,
     "code review".data, "verificar".data]
  | .DOCUMENT =>
    ["document".data, "documentar".data, "docstring".data,
     "readme".data, "docs".data]
  | .TEST =>
    ["test".data, "testar".data, "teste".data, "unit test".data,
     "testes".data]
  | .DEBUG =>
    ["debug".data, "bug".data, "erro".data, "error".data, "fix".data,
     "corrigir".data, "problema".data]
  | .REFACTOR =>
    ["refactor".data, "refatorar".data, "melhorar".data, "clean".data,
     "limpar".data]
  | .ANALYZE_ARCHITECTURE =>
    ["architecture".data, "arquitetura".data, "design".data,
     "estrutura".data]
  | .SECURITY_SCAN =>
    ["security".data, "segurança".data, "vulnerab".data, "owasp".data,
     "injection".data]
  | .FULL_ANALYSIS =>
    ["full".data, "completo".data, "completa".data, "tudo".data,
     "all".data]

/-- Iteration (insertion) order of the `INTENT_KEYWORDS` dict. -/
def intentsOrder : List TaskIntent :=
  [.REVIEW, .DOCUMENT, .TEST, .DEBUG, .REFACTOR,
   .ANALYZE_ARCHITECTURE, .SECURITY_SCAN, .FULL_ANALYSIS]

/-- Whether some keyword of `i` occurs in the lower-cased message (the
inner `for keyword in keywords ... break` loop of `detect_intent`). -/
def intentMatches (message : Str) (i : TaskIntent) : Bool :=
  (INTENT_KEYWORDS i).any (fun kw => containsSubB kw (pyLower message))

/-- Model of `CopilotCoordinator.detect_intent`. -/
def detect_intent (message : Str) : List TaskIntent :=
  let detected := intentsOrder.filter (intentMatches message)
  if detected = [] then [.REVIEW] else detected

/-- Model of `CopilotCoordinator.select_copilots`; `registered` is the key set of
the `self.copilots` dict. -/
def select_copilots (registered : List CopilotType)
    (intents : List TaskIntent) : List CopilotType :=
  let copilot_types := (intents.flatMap INTENT_COPILOT_MAP).dedup
  copilot_types.filter (fun ct => ct ∈ registered)

/-- What `copilot.process(context)` returns for a registered copilot. -/
structure ProcResponse where
  success : Bool
  content : Str
  metadata : List (Str × Str)
  deriving DecidableEq

/-- Behaviour of the registered copilots during one `process` call: either
the response of `copilot.process(context)`, or the message of the
exception it raised. -/
abbrev CopilotExec := CopilotType → Except Str ProcResponse

/-- One entry of the `results` dict built by `process`. -/
structure ResultEntry where
  success : Bool
  content : Str
  metadata : List (Str × Str)
  deriving DecidableEq

/-- The `results[copilot_type.value] = ...` assignment, including the
`except Exception` branch that records a failure entry. -/
def resultEntry (exec : CopilotExec) (ct : CopilotType) : ResultEntry :=
  match exec ct with
  | .ok r => { success := r.success, content := r.content, metadata := r.metadata }
  | .error e => { success := false, content := "Erro: ".data ++ e, metadata := [] }

/-- The `results` dict of `process`: one entry per selected type that is
registered, keyed by the type's `.value` string. -/
def runResults (registered : List CopilotType) (exec : CopilotExec)
    (copilot_types : List CopilotType) : List (Str × ResultEntry) :=
  copilot_types.filterMap (fun ct =>
    if ct ∈ registered then some (ct.value, resultEntry exec ct) else none)

/-- Model of the `CoordinatorRequest` pydantic class (the `context` dict, which only
feeds the copilot calls abstracted by `CopilotExec`, is omitted). -/
structure CoordinatorRequest where
  message : Str
  files : List Str
  preferred_copilots : Option (List CopilotType)

/-- Model of the `CoordinatorResponse` pydantic class; `details` is the `results` dict. -/
structure CoordinatorResponse where
  success : Bool
  summary : Str
  details : List (Str × ResultEntry)
  recommendations : List Str
  copilots_used : List Str
  deriving DecidableEq

/-- Model of `CopilotCoordinator._consolidate_results`. -/
def consolidate_results (results : List (Str × ResultEntry))
    (copilot_types : List CopilotType) : CoordinatorResponse :=
  let all_success := results.all (fun r => r.2.success)
  let summary_parts := results.map (fun r =>
    if r.2.success then "✅ ".data ++ r.1 ++ ": Análise concluída".data
    else "❌ ".data ++ r.1 ++ ": Falha na análise".data)
  let summary := "## Resumo da Análise\n\n".data ++ joinSep "\n".data summary_parts
  let recommendations :=
    if results.any (fun r =>
        containsSubB "recomend".data (pyLower r.2.content) ||
        containsSubB "sugest".data (pyLower r.2.content)) then
      ["Verifique as recomendações detalhadas no relatório".data]
    else []
  { success := all_success, summary := summary, details := results,
    recommendations := recommendations,
    copilots_used := copilot_types.map CopilotType.value }

/-- Model of `CopilotCoordinator.process`.  `registered` is the key set of
`self.copilots`, `exec` the behaviour of the registered copilots. -/
def process (registered : List CopilotType) (exec : CopilotExec)
    (request : CoordinatorRequest) : CoordinatorResponse :=
  let copilot_types := match request.preferred_copilots with
    | some (c :: cs) => c :: cs
    | _ => select_copilots registered (detect_intent request.message)
  if copilot_types = [] then
    { success := false,
      summary := "Nenhum copiloto disponível para esta solicitação".data,
      details := [], recommendations := [], copilots_used := [] }
  else
    consolidate_results (runResults registered exec copilot_types) copilot_types

end CopilotCoordinator

/-! ### Helper lemmas -/

theorem isPrefixOfB_self (l : Str) : isPrefixOfB l l = true := by
  induction l with
  | nil => rfl
  | cons a t ih => simp [isPrefixOfB, ih]

theorem containsSubB_self (n : Str) : containsSubB n n = true := by
  cases n with
  | nil => rfl
  | cons c t => simp [containsSubB, isPrefixOfB_self]

theorem containsSubB_append_left (n : Str) : ∀ p : Str, containsSubB n (p ++ n) = true := by
  intro p
  induction p with
  | nil => simpa using containsSubB_self n
  | cons c t ih => simp [containsSubB, ih]

theorem isPrefixOfB_map (f : Char → Char) (n h : Str)
    (hp : isPrefixOfB n h = true) : isPrefixOfB (n.map f) (h.map f) = true := by
  induction n generalizing h with
  | nil => simp [isPrefixOfB]
  | cons a as ih =>
    cases h with
    | nil => simp [isPrefixOfB] at hp
    | cons b bs =>
      simp only [isPrefixOfB, Bool.and_eq_true, beq_iff_eq] at hp
      simp only [List.map_cons, isPrefixOfB, Bool.and_eq_true, beq_iff_eq]
      exact ⟨by rw [hp.1], ih bs hp.2⟩

theorem containsSubB_map (f : Char → Char) (n h : Str)
    (hc : containsSubB n h = true) : containsSubB (n.map f) (h.map f) = true := by
  induction h with
  | nil =>
    cases n with
    | nil => rfl
    | cons a as => simp [containsSubB, isPrefixOfB] at hc
  | cons b bs ih =>
    simp only [containsSubB, Bool.or_eq_true] at hc
    rcases hc with hc | hc
    · simp only [List.map_cons, containsSubB, Bool.or_eq_true]
      exact Or.inl (isPrefixOfB_map f n (b :: bs) hc)
    · simp only [List.map_cons, containsSubB, Bool.or_eq_true]
      exact Or.inr (ih hc)

theorem fsLookup_fsInsert_self {α : Type} (fs : FS α) (p : Str) (e : CacheEntry α) :
    fsLookup (fsInsert fs p e) p = some e := by
  induction fs with
  | nil => simp [fsInsert, fsLookup]
  | cons kv t ih =>
    obtain ⟨q, e'⟩ := kv
    by_cases h : q = p
    · simp [fsInsert, fsLookup, h]
    · simp [fsInsert, fsLookup, h, ih]

theorem fsLookup_eq_none_of_not_mem {α : Type} (fs : FS α) (p : Str)
    (h : p ∉ fs.map Prod.fst) : fsLookup fs p = none := by
  induction fs with
  | nil => rfl
  | cons kv t ih =>
    obtain ⟨q, e⟩ := kv
    simp only [List.map_cons, List.mem_cons, not_or] at h
    simp only [fsLookup]
    rw [if_neg (fun hq => h.1 hq.symm), ih h.2]

theorem fsLookup_fsErase_self {α : Type} (fs : FS α) (p : Str)
    (hnd : pathsNodup fs) : fsLookup (fsErase fs p) p = none := by
  induction fs with
  | nil => rfl
  | cons kv t ih =>
    obtain ⟨q, e'⟩ := kv
    simp only [pathsNodup, List.map_cons, List.nodup_cons] at hnd
    by_cases h : q = p
    · subst h
      simp only [fsErase, if_pos rfl]
      exact fsLookup_eq_none_of_not_mem t q hnd.1
    · simp only [fsErase, if_neg h, fsLookup, if_neg h]
      exact ih hnd.2

/-! ### Concrete fixtures used by witnesses and counterexamples -/

/-- A concrete cache configuration (the hash function stands for the fixed
sha256 hex digest of the single key used in the concrete runs). -/
def c0 : CacheCfg :=
  { cache_dir := "data/cache".data, default_ttl := 3600, enabled := true,
    hashHex := fun _ =>
      "0123456789abcdef0123456789abcdef0123456789abcdef0123456789abcdef".data }

/-- A parsed cache file whose `expires_at` timestamp is zero. -/
def e0 : CacheEntry ℕ :=
  { key := "k".data, value := 7, created_at := 0, expires_at := some 0,
    hit_count := 0 }

/-- A one-file cache directory holding `e0` at the path of key `"k"`. -/
def fs0 : FS ℕ := [(Cache.get_cache_path c0 "k".data, e0)]

/-! ### Claims -/

/-- C1, counterexample: `set("k", 42, ttl=1)` at time `0` succeeds, and at
the exact boundary time `now = 1` (so `now - set_time = T`) `get("k")`
still returns the value `42`, not `None` — the code treats an entry as
expired only when `now > expires_at`, strictly. -/
theorem claim_C1_counterexample :
    (Cache.set c0 ([] : FS ℕ) "k".data 42 (some 1) 0).1 = true ∧
    (1 : ℤ) - 0 ≥ 1 ∧
    (Cache.get c0 (Cache.set c0 ([] : FS ℕ) "k".data 42 (some 1) 0).2
        "k".data 1).1 = some 42 := by
  decide

/-- C1, amended: on an enabled cache, after `set(K, V, ttl=T)` with `T > 0`
at a nonnegative wall-clock time `set_time` succeeds, `get(K)` returns `V`
at every time with `now - set_time ≤ T` and returns `None` at every time
with `now - set_time > T` (the boundary `now - set_time = T` is a hit, not
a miss). -/
theorem claim_C1 {α : Type} (c : CacheCfg) (fs : FS α) (key : Str) (v : α)
    (T set_time now : ℤ) (hen : c.enabled = true) (hT : 0 < T)
    (hst : 0 ≤ set_time) :
    (Cache.set c fs key v (some T) set_time).1 = true ∧
    (now - set_time ≤ T →
      (Cache.get c (Cache.set c fs key v (some T) set_time).2 key now).1
        = some v) ∧
    (T < now - set_time →
      (Cache.get c (Cache.set c fs key v (some T) set_time).2 key now).1
        = none) := by
  have hTne : T ≠ 0 := ne_of_gt hT
  have hset : Cache.set c fs key v (some T) set_time =
      (true, fsInsert fs (Cache.get_cache_path c key)
        { key := key, value := v, created_at := set_time,
          expires_at := some (set_time + T), hit_count := 0 }) := by
    simp [Cache.set, hen, hTne, hT]
  refine ⟨by rw [hset], ?_, ?_⟩
  · intro hle
    rw [hset]
    simp only [Cache.get, hen, Bool.true_eq_false, if_false,
      fsLookup_fsInsert_self]
    rw [if_neg]
    simp only [Cache.expiredB, Cache.expTruthy, Option.getD,
      Bool.and_eq_true, decide_eq_true_eq, not_and]
    intro _
    omega
  · intro hgt
    rw [hset]
    simp only [Cache.get, hen, Bool.true_eq_false, if_false,
      fsLookup_fsInsert_self]
    rw [if_pos]
    simp only [Cache.expiredB, Cache.expTruthy, Option.getD,
      Bool.and_eq_true, decide_eq_true_eq]
    constructor <;> omega

/-- C1, witness for the amended theorem: `set` at time `0` with `ttl = 1`,
then `get` at time `1` (boundary, hit) and at time `2` (past the TTL,
miss). -/
theorem claim_C1_witness :
    (Cache.get c0 (Cache.set c0 ([] : FS ℕ) "k".data 42 (some 1) 0).2
        "k".data 1).1 = some 42 ∧
    (Cache.get c0 (Cache.set c0 ([] : FS ℕ) "k".data 42 (some 1) 0).2
        "k".data 2).1 = none :=
  ⟨(claim_C1 c0 [] "k".data 42 1 0 1 rfl (by decide) (by decide)).2.1
      (by decide),
   (claim_C1 c0 [] "k".data 42 1 0 2 rfl (by decide) (by decide)).2.2
      (by decide)⟩

/-- C5: the cache file of key `K` lives at
`<cache_dir>/<first-2-chars-of-key-hash>/<key-hash>.json`: the base name
of the file is the whole key hash (the 32-character truncation of the
sha256 hex digest that `_get_key_hash` computes) and the shard
subdirectory is the first two characters of that same hash. -/
theorem claim_C5 (c : CacheCfg) (key : Str) :
    Cache.get_cache_path c key =
      c.cache_dir ++ "/".data ++ (Cache.get_key_hash c key).take 2
        ++ "/".data ++ (Cache.get_key_hash c key ++ ".json".data) ∧
    (64 ≤ (c.hashHex key).length →
      (Cache.get_key_hash c key).length = 32 ∧
      ((Cache.get_key_hash c key).take 2).length = 2) := by
  refine ⟨rfl, fun h64 => ?_⟩
  have h32 : (Cache.get_key_hash c key).length = 32 := by
    simp only [Cache.get_key_hash, List.length_take]
    omega
  refine ⟨h32, ?_⟩
  rw [List.length_take, h32]
  rfl

/-- C5, witness: on the concrete configuration `c0` (whose hash function
returns a 64-character digest) the hash has length 32 and the shard name
length 2. -/
theorem claim_C5_witness :
    (Cache.get_key_hash c0 "k".data).length = 32 ∧
    ((Cache.get_key_hash c0 "k".data).take 2).length = 2 :=
  (claim_C5 c0 "k".data).2 (by decide)

/-- C9: on an enabled cache (with the default TTL positive and a
nonnegative wall-clock time), `set(K, V, ttl=0)` does not create a
non-expiring entry: Python's `ttl or self.default_ttl` replaces `0` by
`default_ttl`, so the stored entry carries
`expires_at = now + default_ttl` and `get` misses once
`now' > now + default_ttl`; `set` with a negative ttl stores
`expires_at = None` and `get` returns the value at every later time. -/
theorem claim_C9 {α : Type} (c : CacheCfg) (fs : FS α) (key : Str) (v : α)
    (now t : ℤ) (hen : c.enabled = true) (hnow : 0 ≤ now)
    (hdt : 0 < c.default_ttl) (ht : t < 0) :
    (fsLookup (Cache.set c fs key v (some 0) now).2
        (Cache.get_cache_path c key) =
      some { key := key, value := v, created_at := now,
             expires_at := some (now + c.default_ttl), hit_count := 0 }) ∧
    (∀ now' : ℤ, now + c.default_ttl < now' →
      (Cache.get c (Cache.set c fs key v (some 0) now).2 key now').1
        = none) ∧
    (fsLookup (Cache.set c fs key v (some t) now).2
        (Cache.get_cache_path c key) =
      some { key := key, value := v, created_at := now,
             expires_at := none, hit_count := 0 }) ∧
    (∀ now' : ℤ,
      (Cache.get c (Cache.set c fs key v (some t) now).2 key now').1
        = some v) := by
  have hset0 : Cache.set c fs key v (some 0) now =
      (true, fsInsert fs (Cache.get_cache_path c key)
        { key := key, value := v, created_at := now,
          expires_at := some (now + c.default_ttl), hit_count := 0 }) := by
    simp [Cache.set, hen, hdt]
  have hsetneg : Cache.set c fs key v (some t) now =
      (true, fsInsert fs (Cache.get_cache_path c key)
        { key := key, value := v, created_at := now,
          expires_at := none, hit_count := 0 }) := by
    have htne : t ≠ 0 := ne_of_lt ht
    have htng : ¬ t > 0 := by omega
    simp [Cache.set, hen, htne, htng]
  refine ⟨?_, ?_, ?_, ?_⟩
  · rw [hset0, fsLookup_fsInsert_self]
  · intro now' hlt
    rw [hset0]
    simp only [Cache.get, hen, Bool.true_eq_false, if_false,
      fsLookup_fsInsert_self]
    rw [if_pos]
    simp only [Cache.expiredB, Cache.expTruthy, Option.getD,
      Bool.and_eq_true, decide_eq_true_eq]
    constructor <;> omega
  · rw [hsetneg, fsLookup_fsInsert_self]
  · intro now'
    rw [hsetneg]
    simp only [Cache.get, hen, Bool.true_eq_false, if_false,
      fsLookup_fsInsert_self]
    rw [if_neg]
    simp [Cache.expiredB, Cache.expTruthy]

/-- C9, witness: on `c0` (default TTL 3600), `set` with `ttl = 0` at time
`1` stores `expires_at = 3601` and `get` at time `4000` misses, while
`set` with `ttl = -1` stores `expires_at = None` and `get` at time
`1000000` still hits. -/
theorem claim_C9_witness :
    (Cache.get c0 (Cache.set c0 ([] : FS ℕ) "k".data 42 (some 0) 1).2
        "k".data 4000).1 = none ∧
    (Cache.get c0 (Cache.set c0 ([] : FS ℕ) "k".data 42 (some (-1)) 1).2
        "k".data 1000000).1 = some 42 :=
  ⟨(claim_C9 c0 [] "k".data 42 1 (-1) rfl (by decide) (by decide)
      (by decide)).2.1 4000 (by decide),
   (claim_C9 c0 [] "k".data 42 1 (-1) rfl (by decide) (by decide)
      (by decide)).2.2.2 1000000⟩

/-- Splitting a list by a boolean predicate preserves its length. -/
theorem length_filter_add_length_filter_not {α : Type} (p : α → Bool)
    (l : List α) :
    (l.filter p).length + (l.filter (fun a => !p a)).length = l.length := by
  induction l with
  | nil => rfl
  | cons a t ih =>
    cases h : p a <;> simp [List.filter_cons, h] <;> omega

/-- The expiry test succeeds exactly on entries whose `expires_at` is set,
nonzero (Python truthiness of the float) and in the strict past. -/
theorem expiredB_eq_true_iff {α : Type} (now : ℤ) (e : CacheEntry α) :
    Cache.expiredB now e = true ↔
      ∃ x, e.expires_at = some x ∧ x ≠ 0 ∧ x < now := by
  cases hx : e.expires_at with
  | none => simp [Cache.expiredB, Cache.expTruthy, hx]
  | some x =>
    simp only [Cache.expiredB, Cache.expTruthy, hx, Option.getD,
      Bool.and_eq_true, decide_eq_true_eq, Option.some.injEq]
    constructor
    · rintro ⟨h0, hlt⟩
      exact ⟨x, rfl, h0, hlt⟩
    · rintro ⟨y, hy, h0, hlt⟩
      subst hy
      exact ⟨h0, hlt⟩

/-- A fresher entry used by the C4 witness: expires at time 5. -/
def e1 : CacheEntry ℕ :=
  { key := "k".data, value := 9, created_at := 0, expires_at := some 5,
    hit_count := 3 }

/-- A one-file cache directory holding `e1` at the path of key `"k"`. -/
def fs1 : FS ℕ := [(Cache.get_cache_path c0 "k".data, e1)]

/-- C4, counterexample: the stored entry `e0` has `expires_at` set (to the
timestamp `0`) and is expired at read time `now = 1 > 0`, yet `get`
returns the stored value instead of `None` and deletes nothing
(`exists` is still true): `if entry.expires_at and ...` treats the float
`0.0` as falsy, so the expiry check is skipped. -/
theorem claim_C4_counterexample :
    e0.expires_at = some 0 ∧ (0 : ℤ) < 1 ∧
    fsLookup fs0 (Cache.get_cache_path c0 "k".data) = some e0 ∧
    (Cache.get c0 fs0 "k".data 1).1 = some 7 ∧
    (Cache.existsKey c0 fs0 "k".data 1).1 = true := by
  decide

/-- C4, amended: on an enabled cache, for a stored entry whose
`expires_at` is set to a *nonzero* timestamp earlier than the read time,
`get` returns `None` and unlinks the stale file, so `exists` is false
immediately afterwards; for an entry the expiry test does not catch
(`expires_at` missing, zero, or not in the strict past) `get` returns the
stored value and persists the entry with `hit_count` incremented by one. -/
theorem claim_C4 {α : Type} (c : CacheCfg) (fs : FS α) (key : Str)
    (entry : CacheEntry α) (now : ℤ) (hen : c.enabled = true)
    (hfound : fsLookup fs (Cache.get_cache_path c key) = some entry) :
    (∀ x : ℤ, entry.expires_at = some x → x ≠ 0 → x < now →
      (Cache.get c fs key now).1 = none ∧
      (Cache.get c fs key now).2 = fsErase fs (Cache.get_cache_path c key) ∧
      (pathsNodup fs →
        (Cache.existsKey c (Cache.get c fs key now).2 key now).1 = false)) ∧
    ((entry.expires_at = none ∨
        (∃ x, entry.expires_at = some x ∧ (x = 0 ∨ now ≤ x))) →
      (Cache.get c fs key now).1 = some entry.value ∧
      fsLookup (Cache.get c fs key now).2 (Cache.get_cache_path c key) =
        some { entry with hit_count := entry.hit_count + 1 }) := by
  constructor
  · intro x hx hx0 hxlt
    have hexp : Cache.expiredB now entry = true :=
      (expiredB_eq_true_iff now entry).mpr ⟨x, hx, hx0, hxlt⟩
    have hget : Cache.get c fs key now =
        (none, fsErase fs (Cache.get_cache_path c key)) := by
      simp [Cache.get, hen, hfound, hexp, Cache.delete]
    refine ⟨by rw [hget], by rw [hget], fun hnd => ?_⟩
    rw [hget]
    simp [Cache.existsKey, hen, fsLookup_fsErase_self fs _ hnd]
  · intro hlive
    have hexp : Cache.expiredB now entry = false := by
      rw [Bool.eq_false_iff]
      intro htrue
      obtain ⟨x, hx, hx0, hxlt⟩ := (expiredB_eq_true_iff now entry).mp htrue
      rcases hlive with h | ⟨y, hy, hy0⟩
      · rw [h] at hx
        exact Option.noConfusion hx
      · rw [hy] at hx
        obtain rfl : y = x := Option.some.inj hx
        rcases hy0 with h0 | hle
        · exact hx0 h0
        · omega
    have hget : Cache.get c fs key now =
        (some entry.value, fsInsert fs (Cache.get_cache_path c key)
          { entry with hit_count := entry.hit_count + 1 }) := by
      simp [Cache.get, hen, hfound, hexp]
    rw [hget]
    exact ⟨rfl, fsLookup_fsInsert_self fs _ _⟩

/-- C4, witness: on the one-file directory `fs1` (entry expires at 5),
`get` at time 10 misses and purges the file (so `exists` is false), and
`get` at time 4 hits, returning 9 and persisting `hit_count = 4`. -/
theorem claim_C4_witness :
    (Cache.get c0 fs1 "k".data 10).1 = none ∧
    (Cache.existsKey c0 (Cache.get c0 fs1 "k".data 10).2 "k".data 10).1
      = false ∧
    (Cache.get c0 fs1 "k".data 4).1 = some 9 ∧
    fsLookup (Cache.get c0 fs1 "k".data 4).2
        (Cache.get_cache_path c0 "k".data) =
      some { e1 with hit_count := e1.hit_count + 1 } :=
  ⟨((claim_C4 c0 fs1 "k".data e1 10 rfl (by decide)).1 5 rfl (by decide)
      (by decide)).1,
   ((claim_C4 c0 fs1 "k".data e1 10 rfl (by decide)).1 5 rfl (by decide)
      (by decide)).2.2 (by simp [pathsNodup, fs1]),
   ((claim_C4 c0 fs1 "k".data e1 4 rfl (by decide)).2
      (Or.inr ⟨5, rfl, Or.inr (by decide)⟩)).1,
   ((claim_C4 c0 fs1 "k".data e1 4 rfl (by decide)).2
      (Or.inr ⟨5, rfl, Or.inr (by decide)⟩)).2⟩

/-- C7, counterexample: the stored entry `e0` has `expires_at` set to the
timestamp `0`, which is earlier than the current time `1`, yet
`clear_expired` removes nothing (`expires_at == 0.0` is falsy in the
`if entry.expires_at and now > entry.expires_at` test). -/
theorem claim_C7_counterexample :
    e0.expires_at = some 0 ∧ (0 : ℤ) < 1 ∧
    (Cache.clear_expired 1 fs0).2 = fs0 ∧
    (Cache.clear_expired 1 fs0).1 = 0 := by
  decide

/-- C7, amended: `clear_expired` removes exactly the files whose entry has
`expires_at` set, nonzero, and earlier than the current time (an entry
with `expires_at = 0` survives, a Python-truthiness artifact), and keeps
every other file with its contents unchanged; `clear` removes all entries
and reports their number. -/
theorem claim_C7 {α : Type} (now : ℤ) (fs : FS α) :
    (∀ kv : Str × CacheEntry α,
      kv ∈ (Cache.clear_expired now fs).2 ↔
        kv ∈ fs ∧ ¬ ∃ x, kv.2.expires_at = some x ∧ x ≠ 0 ∧ x < now) ∧
    (Cache.clear_expired now fs).1 =
      fs.length - ((Cache.clear_expired now fs).2).length ∧
    (Cache.clear fs).2 = ([] : FS α) ∧
    (Cache.clear fs).1 = fs.length := by
  refine ⟨fun kv => ?_, ?_, rfl, rfl⟩
  · rw [Cache.clear_expired, List.mem_filter]
    constructor
    · rintro ⟨hmem, hb⟩
      refine ⟨hmem, fun hx => ?_⟩
      rw [Bool.not_eq_eq_eq_not, Bool.not_true] at hb
      rw [(expiredB_eq_true_iff now kv.2).mpr hx] at hb
      exact Bool.noConfusion hb
    · rintro ⟨hmem, hx⟩
      refine ⟨hmem, ?_⟩
      rw [Bool.not_eq_eq_eq_not, Bool.not_true]
      rw [Bool.eq_false_iff]
      intro htrue
      exact hx ((expiredB_eq_true_iff now kv.2).mp htrue)
  · have h := length_filter_add_length_filter_not
      (fun kv : Str × CacheEntry α => Cache.expiredB now kv.2) fs
    rw [Cache.clear_expired]
    dsimp only
    omega

/-! ### Coordinator claims -/

open CopilotCoordinator

/-- A copilot behaviour that always raises. -/
def execFail : CopilotExec := fun _ => Except.error "boom".data

/-- A copilot behaviour that always answers successfully. -/
def execOk : CopilotExec := fun _ =>
  Except.ok { success := true, content := "ok".data, metadata := [] }

/-- A request with no preferred copilots and a keyword-free message. -/
def reqPlain : CoordinatorRequest :=
  { message := "zzz".data, files := [], preferred_copilots := none }

/-- A request preferring only the (unregistered) `TESTING` copilot. -/
def reqPreferred : CoordinatorRequest :=
  { message := "review".data, files := [],
    preferred_copilots := some [CopilotType.TESTING] }

/-- Every `TaskIntent` appears in the scan order of `detect_intent`. -/
theorem mem_intentsOrder (i : TaskIntent) : i ∈ intentsOrder := by
  cases i <;> simp [intentsOrder]

/-- Unfolding `intentMatches`: some keyword of the intent occurs in the
lower-cased message. -/
theorem intentMatches_eq_true_iff (m : Str) (i : TaskIntent) :
    intentMatches m i = true ↔
      ∃ kw ∈ INTENT_KEYWORDS i, containsSubB kw (pyLower m) = true := by
  simp [intentMatches, List.any_eq_true]

/-- Negation of `intentMatches`: no keyword of the intent occurs. -/
theorem intentMatches_eq_false_iff (m : Str) (i : TaskIntent) :
    intentMatches m i = false ↔
      ∀ kw ∈ INTENT_KEYWORDS i, containsSubB kw (pyLower m) = false := by
  simp [intentMatches, List.any_eq_false]

/-- Membership in the output of `detect_intent`: either the intent's scan
matched, or nothing matched at all and the intent is the `REVIEW`
fallback. -/
theorem detect_intent_mem (m : Str) (i : TaskIntent) :
    i ∈ detect_intent m ↔
      (intentMatches m i = true ∨
       ((∀ j ∈ intentsOrder, intentMatches m j = false) ∧
        i = TaskIntent.REVIEW)) := by
  simp only [detect_intent]
  by_cases hd : List.filter (intentMatches m) intentsOrder = []
  · rw [if_pos hd]
    have hall : ∀ j ∈ intentsOrder, intentMatches m j = false := by
      intro j hj
      have := List.filter_eq_nil_iff.mp hd j hj
      simpa using this
    simp only [List.mem_singleton]
    constructor
    · intro hi
      exact Or.inr ⟨hall, hi⟩
    · rintro (hm | ⟨-, hi⟩)
      · rw [hall i (mem_intentsOrder i)] at hm
        exact Bool.noConfusion hm
      · exact hi
  · rw [if_neg hd, List.mem_filter]
    constructor
    · rintro ⟨-, hm⟩
      exact Or.inl hm
    · rintro (hm | ⟨hall, -⟩)
      · exact ⟨mem_intentsOrder i, hm⟩
      · exact absurd (List.filter_eq_nil_iff.mpr
          (fun j hj => by rw [hall j hj]; exact Bool.noConfusion)) hd

/-- C2: an intent is in the scan result iff one of its configured keywords
occurs (case-insensitively) in the message, with `REVIEW` as the fallback
when nothing matches; a message containing `"revisar"` yields `REVIEW`;
a message containing no configured keyword yields exactly `[REVIEW]`. -/
theorem claim_C2 :
    (∀ (m : Str) (i : TaskIntent),
      i ∈ detect_intent m ↔
        ((∃ kw ∈ INTENT_KEYWORDS i, containsSubB kw (pyLower m) = true) ∨
         ((∀ j ∈ intentsOrder, ∀ kw ∈ INTENT_KEYWORDS j,
             containsSubB kw (pyLower m) = false) ∧
          i = TaskIntent.REVIEW))) ∧
    (∀ m : Str, containsSubB "revisar".data m = true →
      TaskIntent.REVIEW ∈ detect_intent m) ∧
    (∀ m : Str,
      (∀ j ∈ intentsOrder, ∀ kw ∈ INTENT_KEYWORDS j,
        containsSubB kw (pyLower m) = false) →
      detect_intent m = [TaskIntent.REVIEW]) := by
  refine ⟨fun m i => ?_, fun m hrev => ?_, fun m hall => ?_⟩
  · rw [detect_intent_mem]
    simp only [intentMatches_eq_true_iff, intentMatches_eq_false_iff]
  · have h1 : containsSubB ("revisar".data.map Char.toLower)
        (m.map Char.toLower) = true :=
      containsSubB_map Char.toLower "revisar".data m hrev
    have h2 : "revisar".data.map Char.toLower = "revisar".data := by decide
    rw [h2] at h1
    refine (detect_intent_mem m TaskIntent.REVIEW).mpr (Or.inl ?_)
    refine (intentMatches_eq_true_iff m TaskIntent.REVIEW).mpr
      ⟨"revisar".data, ?_, h1⟩
    simp [INTENT_KEYWORDS]
  · have hd : List.filter (intentMatches m) intentsOrder = [] := by
      refine List.filter_eq_nil_iff.mpr (fun j hj => ?_)
      rw [(intentMatches_eq_false_iff m j).mpr (hall j hj)]
      exact Bool.noConfusion
    simp only [detect_intent]
    rw [if_pos hd]

/-- C2, witness: the message `"revisar"` yields the `REVIEW` intent, and
the keyword-free message `"zzz"` yields exactly `[REVIEW]`. -/
theorem claim_C2_witness :
    TaskIntent.REVIEW ∈ detect_intent "revisar".data ∧
    detect_intent "zzz".data = [TaskIntent.REVIEW] :=
  ⟨claim_C2.2.1 "revisar".data (by decide),
   claim_C2.2.2 "zzz".data (by decide)⟩

/-- C3: `select_copilots` keeps exactly the copilot types mapped from some
detected intent that are also registered, and when the resulting
selection is empty (with no preferred copilots given) `process` returns
the failure response with `success = false` and no `copilots_used`. -/
theorem claim_C3 :
    (∀ (registered : List CopilotType) (intents : List TaskIntent)
        (ct : CopilotType),
      ct ∈ select_copilots registered intents ↔
        ((∃ i ∈ intents, ct ∈ INTENT_COPILOT_MAP i) ∧ ct ∈ registered)) ∧
    (∀ (registered : List CopilotType) (ex : CopilotExec)
        (request : CoordinatorRequest),
      (request.preferred_copilots = none ∨
       request.preferred_copilots = some []) →
      select_copilots registered (detect_intent request.message) = [] →
      (process registered ex request).success = false ∧
      (process registered ex request).copilots_used = []) := by
  constructor
  · intro registered intents ct
    simp [select_copilots, List.mem_filter, List.mem_dedup, List.mem_flatMap]
  · intro registered ex request hpref hsel
    rcases hpref with h | h <;>
      simp [process, h, hsel]

/-- C3, witness: with no registered copilots and no preferred copilots the
selection for the message `"zzz"` is empty and `process` fails with an
empty `copilots_used`. -/
theorem claim_C3_witness :
    (process [] execFail reqPlain).success = false ∧
    (process [] execFail reqPlain).copilots_used = [] :=
  claim_C3.2 [] execFail reqPlain (Or.inl rfl) (by decide)

/-- C6: the agent wrapper never propagates an LLM failure: an exception
with message `e` is turned into an `AgentResponse` with `success = false`
whose content contains the error text, and a successful call yields
`success = true`; likewise for the async variant `arun`. -/
theorem claim_C6 (name modelName e v : Str) :
    (BaseCopilotAgent.run name modelName (Except.error e)).success = false ∧
    containsSubB e
      (BaseCopilotAgent.run name modelName (Except.error e)).content = true ∧
    (BaseCopilotAgent.run name modelName (Except.ok v)).success = true ∧
    (BaseCopilotAgent.arun name modelName (Except.error e)).success = false ∧
    containsSubB e
      (BaseCopilotAgent.arun name modelName (Except.error e)).content = true ∧
    (BaseCopilotAgent.arun name modelName (Except.ok v)).success = true := by
  refine ⟨rfl, ?_, rfl, rfl, ?_, rfl⟩ <;>
    exact containsSubB_append_left e "Erro ao processar: ".data

/-- C8: the consolidated `recommendations` list is non-empty iff some
result's content contains `"recomend"` or `"sugest"` case-insensitively,
and it is exactly the fixed one-element list produced by that substring
search. -/
theorem claim_C8 (results : List (Str × ResultEntry))
    (cts : List CopilotType) :
    ((consolidate_results results cts).recommendations ≠ [] ↔
      ∃ r ∈ results,
        (containsSubB "recomend".data (pyLower r.2.content) = true ∨
         containsSubB "sugest".data (pyLower r.2.content) = true)) ∧
    (consolidate_results results cts).recommendations =
      (if results.any (fun r =>
          containsSubB "recomend".data (pyLower r.2.content) ||
          containsSubB "sugest".data (pyLower r.2.content)) then
        ["Verifique as recomendações detalhadas no relatório".data]
      else []) := by
  have hrec : (consolidate_results results cts).recommendations =
      (if results.any (fun r =>
          containsSubB "recomend".data (pyLower r.2.content) ||
          containsSubB "sugest".data (pyLower r.2.content)) then
        ["Verifique as recomendações detalhadas no relatório".data]
      else []) := rfl
  refine ⟨?_, hrec⟩
  rw [hrec]
  by_cases h : results.any (fun r =>
      containsSubB "recomend".data (pyLower r.2.content) ||
      containsSubB "sugest".data (pyLower r.2.content)) = true
  · rw [if_pos h]
    simp only [List.any_eq_true, Bool.or_eq_true] at h
    exact iff_of_true (by simp) h
  · rw [if_neg h]
    rw [Bool.not_eq_true, List.any_eq_false] at h
    refine iff_of_false (by simp) ?_
    rintro ⟨r, hr, hor⟩
    have := h r hr
    simp only [Bool.or_eq_true, not_or] at this
    rcases hor with ho | ho
    · exact this.1 ho
    · exact this.2 ho

/-- C10: when the request's `preferred_copilots` is a non-empty list of
unregistered types, `process` runs no copilot (its result is independent
of the copilots' behaviour), and returns `success = true` (the empty
conjunction), empty `details`, no recommendations, and `copilots_used`
listing the unregistered preferred types. -/
theorem claim_C10 (registered : List CopilotType) (ex ex' : CopilotExec)
    (request : CoordinatorRequest) (l : List CopilotType)
    (hpref : request.preferred_copilots = some l) (hne : l ≠ [])
    (hunreg : ∀ ct ∈ l, ct ∉ registered) :
    process registered ex request = process registered ex' request ∧
    (process registered ex request).success = true ∧
    (process registered ex request).details = [] ∧
    (process registered ex request).recommendations = [] ∧
    (process registered ex request).copilots_used =
      l.map CopilotType.value := by
  obtain ⟨c, cs, rfl⟩ : ∃ c cs, l = c :: cs := by
    cases l with
    | nil => exact absurd rfl hne
    | cons c cs => exact ⟨c, cs, rfl⟩
  have hres : ∀ e : CopilotExec, runResults registered e (c :: cs) = [] := by
    intro e
    refine List.filterMap_eq_nil_iff.mpr (fun ct hct => ?_)
    rw [if_neg (hunreg ct hct)]
  have hproc : ∀ e : CopilotExec, process registered e request =
      consolidate_results [] (c :: cs) := by
    intro e
    simp only [process, hpref]
    rw [if_neg (by simp), hres e]
  rw [hproc ex, hproc ex']
  exact ⟨rfl, rfl, rfl, rfl, rfl⟩

/-- C10, witness: preferring only the unregistered `TESTING` copilot on an
empty registry yields a successful response with empty details listing
`"testing"` as used, independently of the copilots' behaviour. -/
theorem claim_C10_witness :
    process [] execFail reqPreferred = process [] execOk reqPreferred ∧
    (process [] execFail reqPreferred).success = true ∧
    (process [] execFail reqPreferred).details = [] ∧
    (process [] execFail reqPreferred).copilots_used =
      List.map CopilotType.value [CopilotType.TESTING] :=
  have h := claim_C10 [] execFail execOk reqPreferred [CopilotType.TESTING]
    rfl (by decide) (by decide)
  ⟨h.1, h.2.1, h.2.2.1, h.2.2.2.2⟩

end Copilot
